import Mathlib

/-!
Verification of the watchexchange export script (src/export_script.py).

The Python source is shallowly embedded below.  Text is modelled as
Lean strings / lists of characters; the Python regular expressions of the
script are embedded as executable matchers with the same scanning order
(leftmost match, alternatives tried in order, greedy quantifiers with
backtracking).  Character classes are modelled at ASCII granularity:
the script's inputs and patterns are ASCII, so the Python str/re Unicode
extensions of whitespace, digit and word classes do not come into play.
-/

/-- Whitespace class: models the ASCII part of Python str.strip, str.split
and the regex class backslash-s, namely space, tab, newline, carriage
return, vertical tab and form feed. -/
def isSpacePy (c : Char) : Bool :=
  c == ' ' || c == '\t' || c == '\n' || c == '\r' || c == '\x0b' || c == '\x0c'

/-- Word-character class: models the ASCII part of the regex class
backslash-w, used for word boundaries, namely letters, digits and the
underscore. -/
def isWordChar (c : Char) : Bool :=
  c.isAlpha || c.isDigit || c == '_'

/-- Python str.strip(): drop whitespace from both ends. -/
def pyStrip (l : List Char) : List Char :=
  ((l.dropWhile isSpacePy).reverse.dropWhile isSpacePy).reverse

/-- Helper for pySplit: accumulate the current word (reversed) while
scanning; a whitespace character flushes the word. -/
def pySplitAux : List Char → List Char → List (List Char)
  | acc, [] => if acc = [] then [] else [acc.reverse]
  | acc, c :: cs =>
    if isSpacePy c then
      if acc = [] then pySplitAux [] cs else acc.reverse :: pySplitAux [] cs
    else pySplitAux (c :: acc) cs

/-- Python str.split() with no arguments: maximal runs of non-whitespace
characters, empty pieces dropped. -/
def pySplit (l : List Char) : List (List Char) :=
  pySplitAux [] l

/-- Scanner state for the bracket-tag matchers: outside any candidate tag,
skipping the whitespace that follows a removed tag, or inside an open
bracket with the characters read so far (reversed). -/
inductive ScanSt
  | normal : ScanSt
  | skipSp : ScanSt
  | inTag : List Char → ScanSt

/-- Scanner realising Python re.sub of the pattern
bracket, one-or-more non-close-bracket characters, close bracket,
then any whitespace, replaced by the empty string (line 112 of the
script).  The scan is left to right and non-overlapping: an open bracket
with no later close bracket (or immediately closed) fails to match and
its characters are copied verbatim, exactly as re.sub does. -/
def subTagsGo : ScanSt → List Char → List Char
  | .normal, [] => []
  | .skipSp, [] => []
  | .inTag acc, [] => '[' :: acc.reverse
  | .normal, c :: cs =>
    if c = '[' then subTagsGo (.inTag []) cs else c :: subTagsGo .normal cs
  | .skipSp, c :: cs =>
    if isSpacePy c then subTagsGo .skipSp cs
    else if c = '[' then subTagsGo (.inTag []) cs
    else c :: subTagsGo .normal cs
  | .inTag acc, c :: cs =>
    if c = ']' then
      if acc = [] then '[' :: ']' :: subTagsGo .normal cs
      else subTagsGo .skipSp cs
    else subTagsGo (.inTag (c :: acc)) cs

/-- Removal of every bracket-tag span and the whitespace following it,
as in extract_brand_model (script line 112). -/
def subTags (l : List Char) : List Char :=
  subTagsGo .normal l

/-- Scanner realising TITLE_TAG_RE.findall (script line 25): collect the
bodies of all non-overlapping bracket tags, where a body is one or more
non-close-bracket characters.  The state is the body read so far
(reversed) when inside an open bracket. -/
def findTagsGo : Option (List Char) → List Char → List (List Char)
  | none, [] => []
  | some _, [] => []
  | none, c :: cs =>
    if c = '[' then findTagsGo (some []) cs else findTagsGo none cs
  | some acc, c :: cs =>
    if c = ']' then
      if acc = [] then findTagsGo none cs
      else acc.reverse :: findTagsGo none cs
    else findTagsGo (some (c :: acc)) cs

/-- All bracket-tag bodies of a text, in reading order. -/
def findTags (l : List Char) : List (List Char) :=
  findTagsGo none l

/-- Case-insensitive literal match of a pattern at the front of a text:
returns the matched text characters and the remainder.  Models the
re.I matching of the phrase patterns of the script. -/
def matchCI : List Char → List Char → Option (List Char × List Char)
  | [], s => some ([], s)
  | _ :: _, [] => none
  | p :: ps, c :: cs =>
    if p.toLower = c.toLower then
      (matchCI ps cs).map (fun mr => (c :: mr.1, mr.2))
    else none

/-- Word-character test lifted to an optional character; the ends of the
text count as non-word. -/
def wordO : Option Char → Bool
  | none => false
  | some c => isWordChar c

/-- Match a phrase case-insensitively at one position, requiring a word
boundary on each side, as the patterns of the script all have the form
boundary, phrase, boundary. -/
def wordAtCI (p : List Char) (prev : Option Char) (s : List Char) : Bool :=
  match matchCI p s with
  | some (m, rest) => (wordO prev != wordO m.head?) && (wordO m.getLast? != wordO rest.head?)
  | none => false

/-- Search a phrase (with word boundaries, case-insensitively) anywhere in
a text, tracking the previous character for the boundary test. -/
def searchWordCI (p : List Char) : Option Char → List Char → Bool
  | prev, [] => wordAtCI p prev []
  | prev, c :: cs => wordAtCI p prev (c :: cs) || searchWordCI p (some c) cs

/-- ASCII apostrophe, written by code point to keep the phrase lists
readable. -/
def apos : Char := Char.ofNat 39

/-- Right single quotation mark (U+2019), the second character of the
character class in LABEL_YES_PATTERNS (script line 43). -/
def rsq : Char := Char.ofNat 8217

/-- LABEL_YES_PATTERNS (script lines 41 to 44), expanded: the pattern
boundary, buyer, one of provides/supplies/sends, optional article, label,
boundary denotes exactly the first six phrases, and the possessive
pattern the last two. -/
def YES_PHRASES : List (List Char) :=
  [ "buyer provides label".data
  , "buyer provides a label".data
  , "buyer supplies label".data
  , "buyer supplies a label".data
  , "buyer sends label".data
  , "buyer sends a label".data
  , "buyer".data ++ [apos] ++ "s label".data
  , "buyer".data ++ [rsq] ++ "s label".data ]

/-- LABEL_NO_PATTERNS (script lines 45 to 49), expanded in the same way. -/
def NO_PHRASES : List (List Char) :=
  [ "seller provides label".data
  , "seller provides a label".data
  , "seller supplies label".data
  , "seller supplies a label".data
  , "shipping included".data
  , "I will ship".data ]

/-- Does any yes-phrase match the text (case-insensitively, with word
boundaries)? -/
def yesLabelMatch (l : List Char) : Bool :=
  YES_PHRASES.any (fun p => searchWordCI p none l)

/-- Does any no-phrase match the text? -/
def noLabelMatch (l : List Char) : Bool :=
  NO_PHRASES.any (fun p => searchWordCI p none l)

/-- SHIP_DEST_HINTS (script lines 32 to 39): the six ordered pairs of a
destination tag and the phrase alternatives of its pattern, each phrase
carrying word boundaries on both sides and matched case-insensitively. -/
def SHIP_DEST_HINTS : List (String × List (List Char)) :=
  [ ("CONUS", ["CONUS".data])
  , ("USA", ["USA".data, "US only".data])
  , ("CANADA", ["Canada".data, "CAN".data])
  , ("EU", ["EU".data, "Europe".data])
  , ("UK", ["UK".data, "United Kingdom".data])
  , ("WORLDWIDE", ["worldwide".data, "WW shipping".data, "international".data]) ]

/-- Does a shipping hint match the text? -/
def hintMatches (h : String × List (List Char)) (l : List Char) : Bool :=
  h.2.any (fun p => searchWordCI p none l)

/-- The currency tag determined by which alternative of PRICE_RE matched. -/
inductive Currency
  | USD : Currency
  | EUR : Currency
deriving DecidableEq

/-- Render the currency tag as in extract_price. -/
def Currency.str : Currency → String
  | .USD => "USD"
  | .EUR => "EUR"

/-- The text captured by an amount group of PRICE_RE: two to six digits,
optionally followed by a decimal point or comma and exactly two digits. -/
structure Amount where
  intPart : List Char
  frac : Option (Char × Char × Char)
deriving DecidableEq

/-- The captured amount as the list of matched characters. -/
def Amount.valChars (a : Amount) : List Char :=
  a.intPart ++ (match a.frac with
                | none => []
                | some f => [f.1, f.2.1, f.2.2])

/-- Backtracking candidates for the optional fractional part
(separator then two digits): the greedy attempt first, then skipping the
group, as the regex engine would. -/
def fracCands (s : List Char) : List (Option (Char × Char × Char) × List Char) :=
  match s with
  | sep :: d1 :: d2 :: rest =>
    if (sep == '.' || sep == ',') && d1.isDigit && d2.isDigit then
      [(some (sep, d1, d2), rest), (none, sep :: d1 :: d2 :: rest)]
    else [(none, sep :: d1 :: d2 :: rest)]
  | _ => [(none, s)]

/-- Backtracking candidates for one amount group of PRICE_RE at a
position: the integer part takes as many digits as possible (at most six,
at least two), longer attempts first, and for each the fractional part is
tried greedily.  Each candidate carries the remaining text. -/
def amountCands (s : List Char) : List (Amount × List Char) :=
  let ds := s.takeWhile Char.isDigit
  let rest := s.dropWhile Char.isDigit
  (List.range' 2 (min ds.length 6 - 1)).reverse.flatMap
    (fun k => (fracCands (ds.drop k ++ rest)).map
      (fun fc => ({ intPart := ds.take k, frac := fc.1 }, fc.2)))

/-- First success of a fallible function over a list of candidates, in
order; realises regex backtracking over candidate lists. -/
def firstHit {α β : Type} (f : α → Option β) : List α → Option β
  | [] => none
  | a :: as =>
    match f a with
    | some b => some b
    | none => firstHit f as

/-- Backtracking candidates for an optional whitespace character:
consume it first (greedy), then leave it. -/
def optSpaceCands (s : List Char) : List (List Char) :=
  match s with
  | c :: cs => if isSpacePy c then [cs, c :: cs] else [c :: cs]
  | [] => [[]]

/-- First alternative of PRICE_RE (group usd1, script line 15): a dollar
sign, an optional space, then an amount.  Nothing follows the amount, so
the greedy first candidate is the match. -/
def priceAlt1 (s : List Char) : Option (Currency × Amount) :=
  match s with
  | c :: rest =>
    if c = '$' then
      firstHit (fun r =>
        match amountCands r with
        | [] => none
        | (a, _) :: _ => some (Currency.USD, a)) (optSpaceCands rest)
    else none
  | [] => none

/-- Second alternative of PRICE_RE (group usd2, script line 16): an
amount, an optional space, then the literal usd or USD
(case-sensitively, as the pattern has no re.I flag). -/
def priceAlt2 (s : List Char) : Option (Currency × Amount) :=
  firstHit (fun ar =>
    firstHit (fun r2 =>
      if "usd".data.isPrefixOf r2 || "USD".data.isPrefixOf r2 then
        some (Currency.USD, ar.1)
      else none) (optSpaceCands ar.2)) (amountCands s)

/-- Third alternative of PRICE_RE (group eur, script line 17): an amount,
an optional space, then the literal eur, EUR or the euro sign. -/
def priceAlt3 (s : List Char) : Option (Currency × Amount) :=
  firstHit (fun ar =>
    firstHit (fun r2 =>
      if "eur".data.isPrefixOf r2 || "EUR".data.isPrefixOf r2 || "€".data.isPrefixOf r2 then
        some (Currency.EUR, ar.1)
      else none) (optSpaceCands ar.2)) (amountCands s)

/-- Fourth alternative of PRICE_RE (group eur2, script line 18): a euro
sign, an optional space, then an amount. -/
def priceAlt4 (s : List Char) : Option (Currency × Amount) :=
  match s with
  | c :: rest =>
    if c = '€' then
      firstHit (fun r =>
        match amountCands r with
        | [] => none
        | (a, _) :: _ => some (Currency.EUR, a)) (optSpaceCands rest)
    else none
  | [] => none

/-- Try the four alternatives of PRICE_RE at one position, in the order
they appear in the pattern. -/
def priceMatchAt (s : List Char) : Option (Currency × Amount) :=
  match priceAlt1 s with
  | some r => some r
  | none =>
    match priceAlt2 s with
    | some r => some r
    | none =>
      match priceAlt3 s with
      | some r => some r
      | none => priceAlt4 s

/-- PRICE_RE.search: scan positions left to right and return the first
match (script line 54).  At the empty remainder no alternative can match,
so the scan simply ends. -/
def searchPrice : List Char → Option (Currency × Amount)
  | [] => none
  | c :: cs =>
    match priceMatchAt (c :: cs) with
    | some r => some r
    | none => searchPrice cs

/-- extract_price (script lines 51 to 65): empty text gives none; else
search PRICE_RE, determine the currency from the matched group, strip
commas from the captured value, and render currency, space, value. -/
def extract_price (text : String) : Option String :=
  if text = "" then none
  else
    match searchPrice text.data with
    | none => none
    | some (cur, a) =>
      some (cur.str ++ " " ++ String.mk (a.valChars.filter (fun c => c != ',')))

/-- Substring containment, modelling the Python in operator on strings:
the needle occurs contiguously somewhere in the haystack. -/
def containsSub (needle : List Char) : List Char → Bool
  | [] => needle.isEmpty
  | c :: t => needle.isPrefixOf (c :: t) || containsSub needle t

/-- The token list of the containment test in extract_location_from_title
(script line 74). -/
def locTokens : List String :=
  ["USA", "US", "CAN", "EU", "UK", "AUS", "NZ"]

/-- Containment test of script line 74: does the upper-cased tag contain
one of the tokens as a substring? -/
def locTagHit (tt : List Char) : Bool :=
  locTokens.any (fun x => containsSub x.data (tt.map Char.toUpper))

/-- Test of script line 77: is the (stripped) tag exactly two uppercase
letters, as re.fullmatch of the class A to Z, twice, checks? -/
def isTwoUpperAZ (tt : List Char) : Bool :=
  match tt with
  | [a, b] => ('A' ≤ a && a ≤ 'Z') && ('A' ≤ b && b ≤ 'Z')
  | _ => false

/-- The tag loop of extract_location_from_title (script lines 72 to 79):
return the first stripped tag passing the containment test, else the
first stripped tag that is exactly two uppercase letters, else none. -/
def locGo : List (List Char) → Option String
  | [] => none
  | t :: ts =>
    let tt := pyStrip t
    if locTagHit tt then some (String.mk tt)
    else if isTwoUpperAZ tt then some (String.mk tt)
    else locGo ts

/-- extract_location_from_title (script lines 67 to 79). -/
def extract_location_from_title (title : String) : Option String :=
  locGo (findTags title.data)

/-- The found-list loop of extract_ship_dests (script lines 84 to 87):
collect the labels of the matching hints in declaration order. -/
def shipFound (hs : List (String × List (List Char))) (l : List Char) : List String :=
  match hs with
  | [] => []
  | h :: rest =>
    if hintMatches h l then h.1 :: shipFound rest l else shipFound rest l

/-- The de-duplication loop of extract_ship_dests (script lines 91 to 94):
append each element not already present, preserving first-seen order. -/
def dedupAcc (acc : List String) : List String → List String
  | [] => acc
  | x :: xs => if x ∈ acc then dedupAcc acc xs else dedupAcc (acc ++ [x]) xs

/-- extract_ship_dests (script lines 81 to 95). -/
def extract_ship_dests (text : String) : Option String :=
  if text = "" then none
  else
    let found := shipFound SHIP_DEST_HINTS text.data
    if found = [] then none
    else some (String.intercalate ", " (dedupAcc [] found))

/-- infer_buyer_label (script lines 97 to 106): empty text gives none;
else the yes-patterns are tried first, then the no-patterns; no match
gives none, which the script comments as the unknown state. -/
def infer_buyer_label (text : String) : Option String :=
  if text = "" then none
  else if yesLabelMatch text.data then some "yes"
  else if noLabelMatch text.data then some "no"
  else none

/-- extract_brand_model (script lines 108 to 119): strip bracket tags,
strip whitespace, split on whitespace; fewer than two parts returns the
cleaned text (or none when it is empty) as brand with no model, else the
first part is the brand and the rest, joined with single spaces and
truncated to 200 characters, the model. -/
def extract_brand_model (title : String) : Option String × Option String :=
  if title = "" then (none, none)
  else if (pySplit (pyStrip (subTags title.data))).length < 2 then
    ((if pyStrip (subTags title.data) = [] then none
      else some (String.mk (pyStrip (subTags title.data)))), none)
  else
    match pySplit (pyStrip (subTags title.data)) with
    | [] => (none, none)
    | b :: rest =>
      (some (String.mk b), some (String.mk ((List.intercalate [' '] rest).take 200)))

/-- A raw post as the script reads it from the listing source: title,
body, optional author name, creation instant in epoch seconds. -/
structure RawPost where
  title : String
  selftext : String
  author : Option String
  created_utc : Int

/-- The combined text of script line 140: title, newline, body. -/
def combinedText (p : RawPost) : String :=
  p.title ++ "\n" ++ p.selftext

/-- Python or on optional strings: the left value unless it is falsy
(absent or empty), as in script line 144. -/
def pyOr (a b : Option String) : Option String :=
  match a with
  | some s => if s = "" then b else some s
  | none => b

/-- Civil date (year, month, day) from days since the Unix epoch,
modelling the Gregorian conversion that datetime.fromtimestamp performs
for UTC. -/
def civilFromDays (z0 : Int) : Int × Int × Int :=
  let z := z0 + 719468
  let era := z.fdiv 146097
  let doe := z - era * 146097
  let yoe := (doe - doe / 1460 + doe / 36524 - doe / 146096) / 365
  let y := yoe + era * 400
  let doy := doe - (365 * yoe + yoe / 4 - yoe / 100)
  let mp := (5 * doy + 2) / 153
  let d := doy - (153 * mp + 2) / 5 + 1
  let m := mp + (if mp < 10 then 3 else -9)
  (y + (if m ≤ 2 then 1 else 0), m, d)

/-- Left-pad a number with zeros to a given width. -/
def padNum (w : Nat) (n : Nat) : String :=
  let s := toString n
  String.mk (List.replicate (w - s.length) '0') ++ s

/-- strftime of the pattern year-month-day on the UTC instant of the
post (script line 156). -/
def formatDate (ts : Int) : String :=
  let ymd := civilFromDays (ts.fdiv 86400)
  padNum 4 ymd.1.toNat ++ "-" ++ padNum 2 ymd.2.1.toNat ++ "-" ++ padNum 2 ymd.2.2.toNat

/-- One output record, with the fields built in script lines 148 to 157. -/
structure Row where
  brand : Option String
  model : Option String
  price : Option String
  buyer_label : Option String
  loc : Option String
  ship_dests : Option String
  username : Option String
  date_listed : String

/-- The per-post record construction of the main loop (script lines 138
to 157). -/
def buildRow (p : RawPost) : Row :=
  let combined := combinedText p
  { brand := (extract_brand_model p.title).1
  , model := (extract_brand_model p.title).2
  , price := extract_price combined
  , buyer_label := infer_buyer_label combined
  , loc := pyOr (extract_location_from_title p.title) (extract_location_from_title p.selftext)
  , ship_dests := extract_ship_dests combined
  , username := p.author.map (fun n => "u/" ++ n)
  , date_listed := formatDate p.created_utc }

/-- The consuming loop of main (script lines 133 to 157): posts are taken
in order; the first post created strictly before the cutoff stops the
loop without being processed. -/
def collectRows (cutoff : Int) : List RawPost → List Row
  | [] => []
  | p :: ps =>
    if p.created_utc < cutoff then []
    else buildRow p :: collectRows cutoff ps

/-- The configured lookback window in months (script line 10). -/
def MONTHS_BACK : Nat := 6

/-- The output file name of script line 166. -/
def outputFileName (m : Nat) : String :=
  "watchexchange_last_" ++ toString m ++ "_months.csv"

/-- Specification-side pattern for claim C2: the shape of the fractional
tail in the pattern anchored-start, USD or EUR, space, digits, optional
dot and two digits, anchored-end. -/
def fracShape : List Char → Bool
  | ['.', a, b] => a.isDigit && b.isDigit
  | _ => false

/-- Specification-side pattern for claim C2: digits, optionally a dot and
exactly two digits, to the end. -/
def amtShape (l : List Char) : Bool :=
  let ds := l.takeWhile Char.isDigit
  let r := l.dropWhile Char.isDigit
  !ds.isEmpty && (r.isEmpty || fracShape r)

/-- Specification-side pattern for claim C2: the full output pattern,
USD or EUR, a space, then an amount, spanning the whole string. -/
def specPriceShape (s : String) : Bool :=
  match s.data with
  | 'U' :: 'S' :: 'D' :: ' ' :: rest => amtShape rest
  | 'E' :: 'U' :: 'R' :: ' ' :: rest => amtShape rest
  | _ => false

/-- Invariant of the amount groups used to prove claim C2: the captured
integer part is nonempty and all digits, and the fractional part, when
present, is a point or comma followed by two digits. -/
def goodFrac : Option (Char × Char × Char) → Prop
  | none => True
  | some f => (f.1 = '.' ∨ f.1 = ',') ∧ f.2.1.isDigit = true ∧ f.2.2.isDigit = true

/-- Invariant of a captured amount: nonempty all-digit integer part and a
well-formed optional fractional part. -/
def goodAmt (a : Amount) : Prop :=
  a.intPart ≠ [] ∧ (∀ c ∈ a.intPart, c.isDigit = true) ∧ goodFrac a.frac

/-- Helper for claims C7 and C9: if any tag of the list passes one of the
two tests of the loop, the loop returns some location. -/
theorem locGo_exists : ∀ (L : List (List Char)) (t : List Char), t ∈ L →
    (locTagHit (pyStrip t) || isTwoUpperAZ (pyStrip t)) = true →
    ∃ r, locGo L = some r := by
  intro L
  induction L with
  | nil => intro t ht _; cases ht
  | cons t0 T ih =>
    intro t ht hh
    by_cases h1 : locTagHit (pyStrip t0) = true
    · exact ⟨String.mk (pyStrip t0), by simp [locGo, h1]⟩
    · by_cases h2 : isTwoUpperAZ (pyStrip t0) = true
      · refine ⟨String.mk (pyStrip t0), ?_⟩
        simp only [locGo]
        rw [if_neg h1, if_pos h2]
      · rcases List.mem_cons.mp ht with rfl | htT
        · rw [Bool.or_eq_true] at hh
          rcases hh with hh | hh
          · exact absurd hh h1
          · exact absurd hh h2
        · obtain ⟨r, hr⟩ := ih t htT hh
          refine ⟨r, ?_⟩
          simp only [locGo]
          rw [if_neg h1, if_neg h2]
          exact hr

/-- C1: the main loop builds exactly one record per post in the longest
prefix of posts created at or after the cutoff, and stops at the first
post created strictly earlier without processing it or anything after
it; concretely, with posts at day 0, day -10, day -200 and day -1 (in
that order) and a cutoff of 180 days before day 0, exactly the first two
posts produce records. -/
theorem collectRows_takeWhile_spec :
    (∀ (cutoff : Int) (posts : List RawPost),
      collectRows cutoff posts
        = (posts.takeWhile (fun p => decide (cutoff ≤ p.created_utc))).map buildRow) ∧
    collectRows (-15552000)
        [⟨"p0", "", none, 0⟩, ⟨"p1", "", none, -864000⟩,
         ⟨"p2", "", none, -17280000⟩, ⟨"p3", "", none, -86400⟩]
      = [buildRow ⟨"p0", "", none, 0⟩, buildRow ⟨"p1", "", none, -864000⟩] := by
  have main : ∀ (cutoff : Int) (posts : List RawPost),
      collectRows cutoff posts
        = (posts.takeWhile (fun p => decide (cutoff ≤ p.created_utc))).map buildRow := by
    intro cutoff posts
    induction posts with
    | nil => rfl
    | cons p ps ih =>
      simp only [collectRows, List.takeWhile_cons]
      by_cases h : p.created_utc < cutoff
      · rw [if_pos h]
        have hd : decide (cutoff ≤ p.created_utc) = false := by
          simp only [decide_eq_false_iff_not]; omega
        rw [hd]
        rfl
      · rw [if_neg h]
        have hd : decide (cutoff ≤ p.created_utc) = true := by
          simp only [decide_eq_true_eq]; omega
        rw [hd, ih]
        rfl
  refine ⟨main, ?_⟩
  rw [main]
  norm_num [List.takeWhile_cons]

/-- C8 counterexample: the output file name of the script is
watchexchange_last_6_months.csv, not listings_last_6_months.csv as the
claim states. -/
theorem outputFileName_counterexample :
    outputFileName MONTHS_BACK = "watchexchange_last_6_months.csv" ∧
    outputFileName MONTHS_BACK ≠ "listings_last_6_months.csv" := by
  constructor
  · decide
  · decide

/-- C8 (amended): the output file name encodes the lookback window as
watchexchange_last_N_months.csv, where N is the configured number of
months (6 in this configuration). -/
theorem outputFileName_amended_spec :
    (∀ n : Nat, outputFileName n = "watchexchange_last_" ++ toString n ++ "_months.csv") ∧
    outputFileName MONTHS_BACK = "watchexchange_last_6_months.csv" ∧
    MONTHS_BACK = 6 := by
  exact ⟨fun _ => rfl, by decide, rfl⟩

/-- C7 counterexample: on a title whose bracket tag has the
INTL-plus-region form the location extraction returns none, not the tag,
because the token list actually consulted does not include INTL. -/
theorem extract_location_intl_counterexample :
    extract_location_from_title "[WTS] [INTL-NY] Omega Seamaster" = none := by
  decide

/-- C7 (amended): the recognizer in use tests each bracket-tag body by
substring containment of the upper-cased body against USA, US, CAN, EU,
UK, AUS, NZ, or by the exact two-uppercase-letter form; every title with
such a tag yields a non-absent location, while an INTL-prefixed tag such
as INTL-NY is not accepted by itself. -/
theorem extract_location_amended_spec :
    (∀ (title : String) (t : List Char), t ∈ findTags title.data →
        (locTagHit (pyStrip t) || isTwoUpperAZ (pyStrip t)) = true →
        ∃ r, extract_location_from_title title = some r) ∧
    extract_location_from_title "[WTS] [INTL-NY] Omega Seamaster" = none := by
  constructor
  · intro title t ht hh
    exact locGo_exists (findTags title.data) t ht hh
  · decide

/-- Witness for the amended C7 theorem at a concrete title carrying the
tag USA-CA. -/
theorem extract_location_amended_spec_witness :
    ∃ r, extract_location_from_title "[WTS] [USA-CA] Omega" = some r :=
  extract_location_amended_spec.1 "[WTS] [USA-CA] Omega" "USA-CA".data
    (by decide) (by decide)

/-- C9: the location extraction tests each bracket tag by substring
containment of the upper-cased body against USA, US, CAN, EU, UK, AUS,
NZ, so the first tag containing one of those strings is returned even
when the string sits inside an unrelated word; concretely the title
with tags MUST SELL and USA-CA yields MUST SELL. -/
theorem extract_location_first_tag_spec :
    (∀ (title : String) (t : List Char) (ts : List (List Char)),
        findTags title.data = t :: ts → locTagHit (pyStrip t) = true →
        extract_location_from_title title = some (String.mk (pyStrip t))) ∧
    extract_location_from_title "[MUST SELL] [USA-CA] Omega" = some "MUST SELL" := by
  constructor
  · intro title t ts h hh
    unfold extract_location_from_title
    rw [h]
    simp only [locGo]
    rw [if_pos hh]
  · decide

/-- Witness for the C9 theorem at the concrete title of the claim. -/
theorem extract_location_first_tag_spec_witness :
    extract_location_from_title "[MUST SELL] [USA-CA] Omega"
      = some (String.mk (pyStrip "MUST SELL".data)) :=
  extract_location_first_tag_spec.1 "[MUST SELL] [USA-CA] Omega"
    "MUST SELL".data ["USA-CA".data] (by decide) (by decide)

/-- Helper for claims C4 and C10: when neither phrase set matches, the
label inference returns none. -/
theorem infer_unknown_none (text : String) (hy : yesLabelMatch text.data = false)
    (hn : noLabelMatch text.data = false) : infer_buyer_label text = none := by
  unfold infer_buyer_label
  by_cases h0 : text = ""
  · rw [if_pos h0]
  · rw [if_neg h0]
    simp [hy, hn]

/-- C4: the label inference is total with values yes, no or the absent
value standing for unknown; the yes-set is evaluated first, so a text
matching both sets yields yes; and the result is the unknown value
exactly when neither phrase set matches. -/
theorem infer_buyer_label_total_spec (text : String) :
    (infer_buyer_label text = some "yes" ∨ infer_buyer_label text = some "no" ∨
      infer_buyer_label text = none) ∧
    (yesLabelMatch text.data = true → noLabelMatch text.data = true →
      infer_buyer_label text = some "yes") ∧
    (infer_buyer_label text = none ↔
      (yesLabelMatch text.data = false ∧ noLabelMatch text.data = false)) := by
  by_cases h0 : text = ""
  · subst h0
    have hy : yesLabelMatch "".data = false := by decide
    have hn : noLabelMatch "".data = false := by decide
    refine ⟨Or.inr (Or.inr rfl), ?_, ?_⟩
    · intro h; rw [hy] at h; cases h
    · simp [infer_buyer_label, hy, hn]
  · unfold infer_buyer_label
    rw [if_neg h0]
    cases hy : yesLabelMatch text.data <;> cases hn : noLabelMatch text.data <;>
      simp [hy, hn]

/-- Witness for the C4 theorem: a text containing a yes-phrase and a
no-phrase is labelled yes. -/
theorem infer_buyer_label_total_spec_witness :
    infer_buyer_label "buyer sends label, shipping included" = some "yes" :=
  (infer_buyer_label_total_spec "buyer sends label, shipping included").2.1
    (by decide) (by decide)

/-- C10: the unknown state of the label inference is the same absent
value used by the other nullable fields: whenever neither phrase set
matches (including empty input) the function returns none, and the
record field built from it is the very value none. -/
theorem infer_buyer_label_absent_spec :
    (∀ text : String, yesLabelMatch text.data = false → noLabelMatch text.data = false →
        infer_buyer_label text = none) ∧
    infer_buyer_label "" = none ∧
    (∀ p : RawPost, yesLabelMatch (combinedText p).data = false →
        noLabelMatch (combinedText p).data = false →
        (buildRow p).buyer_label = none) := by
  refine ⟨infer_unknown_none, rfl, ?_⟩
  intro p hy hn
  show infer_buyer_label (combinedText p) = none
  exact infer_unknown_none (combinedText p) hy hn

/-- Witness for the C10 theorem on a concrete post matching no phrase. -/
theorem infer_buyer_label_absent_spec_witness :
    (buildRow ⟨"hello", "world", none, 0⟩).buyer_label = none :=
  infer_buyer_label_absent_spec.2.2 ⟨"hello", "world", none, 0⟩
    (by decide) (by decide)

/-- Helper for claim C5: the found-list loop equals the filter of the
hint table by matching, projected to the labels. -/
theorem shipFound_eq_filter (hs : List (String × List (List Char))) (l : List Char) :
    shipFound hs l = (hs.filter (fun h => hintMatches h l)).map (fun h => h.1) := by
  induction hs with
  | nil => rfl
  | cons h rest ih =>
    by_cases hm : hintMatches h l = true <;>
      simp [shipFound, List.filter_cons, hm, ih]

/-- Helper for claim C5: de-duplication leaves a list without duplicates
unchanged. -/
theorem dedupAcc_nodup : ∀ (l acc : List String), (∀ x ∈ l, x ∉ acc) → l.Nodup →
    dedupAcc acc l = acc ++ l := by
  intro l
  induction l with
  | nil => intro acc _ _; simp [dedupAcc]
  | cons x xs ih =>
    intro acc hdisj hnd
    have hx : x ∉ acc := hdisj x (List.mem_cons_self x xs)
    rw [dedupAcc, if_neg hx, ih (acc ++ [x]) ?_ hnd.of_cons]
    · simp
    · intro y hy
      simp only [List.mem_append, List.mem_singleton]
      rintro (hya | rfl)
      · exact hdisj y (List.mem_cons_of_mem x hy) hya
      · exact (List.nodup_cons.mp hnd).1 hy

/-- Helper for claim C5: the matched labels, in declaration order, carry
no duplicates because the six declared labels are pairwise distinct. -/
theorem shipLabels_nodup (l : List Char) :
    ((SHIP_DEST_HINTS.filter (fun h => hintMatches h l)).map (fun h => h.1)).Nodup := by
  apply List.Nodup.sublist (List.Sublist.map _ (List.filter_sublist SHIP_DEST_HINTS))
  decide

/-- C5: the ship-destinations extraction returns the absent value exactly
when no hint matches; otherwise the returned string is the comma join of
the labels of the matching hints, each appearing at most once, in the
declaration order of the hint table restricted to the matched ones. -/
theorem extract_ship_dests_spec (text : String) :
    (extract_ship_dests text = none ↔
      ∀ h ∈ SHIP_DEST_HINTS, hintMatches h text.data = false) ∧
    (∀ s, extract_ship_dests text = some s →
      s = String.intercalate ", "
            ((SHIP_DEST_HINTS.filter (fun h => hintMatches h text.data)).map (fun h => h.1)) ∧
      ((SHIP_DEST_HINTS.filter (fun h => hintMatches h text.data)).map (fun h => h.1)).Nodup) := by
  have hfm := shipFound_eq_filter SHIP_DEST_HINTS text.data
  by_cases h0 : text = ""
  · subst h0
    constructor
    · simp only [extract_ship_dests, if_pos rfl, true_iff]
      decide
    · intro s hs
      simp only [extract_ship_dests, if_pos rfl] at hs
      cases hs
  · unfold extract_ship_dests
    rw [if_neg h0]
    by_cases hf : shipFound SHIP_DEST_HINTS text.data = []
    · rw [if_pos hf]
      constructor
      · simp only [true_iff]
        rw [hfm] at hf
        have := List.map_eq_nil_iff.mp hf
        intro h hh
        have := List.filter_eq_nil_iff.mp this h hh
        simpa using this
      · intro s hs; cases hs
    · rw [if_neg hf]
      constructor
      · constructor
        · intro h; cases h
        · intro hall
          exfalso
          apply hf
          rw [hfm]
          apply List.map_eq_nil_iff.mpr
          apply List.filter_eq_nil_iff.mpr
          intro h hh
          simp [hall h hh]
      · intro s hs
        have hnd := shipLabels_nodup text.data
        have hded : dedupAcc [] (shipFound SHIP_DEST_HINTS text.data)
            = shipFound SHIP_DEST_HINTS text.data := by
          rw [hfm]
          rw [dedupAcc_nodup _ [] (by simp) hnd]
          simp
        rw [hded] at hs
        injection hs with hs
        exact ⟨by rw [← hs, hfm], hnd⟩

/-- Witness for the C5 theorem on a concrete text matching the CONUS and
WORLDWIDE hints. -/
theorem extract_ship_dests_spec_witness :
    ("CONUS, WORLDWIDE" : String)
        = String.intercalate ", "
            ((SHIP_DEST_HINTS.filter
                (fun h => hintMatches h ("Ships CONUS or worldwide" : String).data)).map
              (fun h => h.1)) ∧
      ((SHIP_DEST_HINTS.filter
          (fun h => hintMatches h ("Ships CONUS or worldwide" : String).data)).map
        (fun h => h.1)).Nodup :=
  (extract_ship_dests_spec "Ships CONUS or worldwide").2 "CONUS, WORLDWIDE" (by decide)

/-- Helper for claim C6: an empty split means the input was all
whitespace, and the running accumulator was empty. -/
theorem pySplitAux_nil : ∀ (l acc : List Char), pySplitAux acc l = [] →
    acc = [] ∧ ∀ c ∈ l, isSpacePy c = true := by
  intro l
  induction l with
  | nil =>
    intro acc h
    by_cases ha : acc = []
    · exact ⟨ha, by intro c hc; cases hc⟩
    · rw [pySplitAux, if_neg ha] at h
      cases h
  | cons c cs ih =>
    intro acc h
    rw [pySplitAux] at h
    cases hc : isSpacePy c with
    | true =>
      rw [hc] at h
      simp only [if_true] at h
      by_cases ha : acc = []
      · rw [if_pos ha] at h
        obtain ⟨-, hall⟩ := ih [] h
        refine ⟨ha, ?_⟩
        intro x hx
        rcases List.mem_cons.mp hx with rfl | hx
        · exact hc
        · exact hall x hx
      · rw [if_neg ha] at h
        cases h
    | false =>
      rw [hc] at h
      simp only [Bool.false_eq_true, if_false] at h
      obtain ⟨ha, -⟩ := ih (c :: acc) h
      cases ha

/-- Helper for claim C6: a singleton split with a nonempty running word
means the rest of the input is a run of non-whitespace characters
followed by trailing whitespace only. -/
theorem pySplitAux_single : ∀ (l acc w : List Char), acc ≠ [] →
    pySplitAux acc l = [w] →
    ∃ a b, l = a ++ b ∧ (∀ c ∈ a, isSpacePy c = false) ∧
      (∀ c ∈ b, isSpacePy c = true) ∧ w = acc.reverse ++ a := by
  intro l
  induction l with
  | nil =>
    intro acc w hne h
    rw [pySplitAux, if_neg hne] at h
    injection h with h1 _
    refine ⟨[], [], by simp, ?_, ?_, ?_⟩
    · intro c hc; cases hc
    · intro c hc; cases hc
    · simp [h1]
  | cons c cs ih =>
    intro acc w hne h
    rw [pySplitAux] at h
    cases hc : isSpacePy c with
    | true =>
      rw [hc] at h
      simp only [if_true, if_neg hne] at h
      injection h with h1 h2
      obtain ⟨-, hall⟩ := pySplitAux_nil cs [] h2
      refine ⟨[], c :: cs, by simp, ?_, ?_, ?_⟩
      · intro x hx; cases hx
      · intro x hx
        rcases List.mem_cons.mp hx with rfl | hx
        · exact hc
        · exact hall x hx
      · simp [h1]
    | false =>
      rw [hc] at h
      simp only [Bool.false_eq_true, if_false] at h
      obtain ⟨a, b, hcs, ha, hb, hw⟩ := ih (c :: acc) w (by simp) h
      refine ⟨c :: a, b, by simp [hcs], ?_, hb, ?_⟩
      · intro x hx
        rcases List.mem_cons.mp hx with rfl | hx
        · exact hc
        · exact ha x hx
      · rw [hw, List.reverse_cons, List.append_assoc]
        rfl

/-- Helper for claim C6: the head of a dropWhile result fails the
predicate. -/
theorem dropWhile_head_false {p : Char → Bool} :
    ∀ (l : List Char) {c : Char} {t : List Char},
      l.dropWhile p = c :: t → p c = false := by
  intro l
  induction l with
  | nil => intro c t h; cases h
  | cons a as ih =>
    intro c t h
    rw [List.dropWhile_cons] at h
    cases hpa : p a with
    | true => rw [hpa] at h; simp only [if_true] at h; exact ih h
    | false =>
      rw [hpa] at h
      simp only [Bool.false_eq_true, if_false] at h
      injection h with h1 _
      rw [h1] at hpa
      exact hpa

/-- Helper for claim C6: the first character of a stripped string is not
whitespace. -/
theorem pyStrip_head_false : ∀ {l c : List Char} {d : Char}, pyStrip l = d :: c →
    isSpacePy d = false := by
  intro l c d h
  have h2 : pyStrip l <+: l.dropWhile isSpacePy := by
    apply List.reverse_suffix.mp
    unfold pyStrip
    rw [List.reverse_reverse]
    exact List.dropWhile_suffix isSpacePy
  obtain ⟨u, hu⟩ := h2
  rw [h] at hu
  exact dropWhile_head_false l hu.symm

/-- Helper for claim C6: the last character of a stripped string (seen as
the head of its reverse) is not whitespace. -/
theorem pyStrip_rev_head_false : ∀ {l t : List Char} {d : Char},
    (pyStrip l).reverse = d :: t → isSpacePy d = false := by
  intro l t d h
  unfold pyStrip at h
  rw [List.reverse_reverse] at h
  exact dropWhile_head_false _ h

/-- Helper for claim C6: a singleton split of a stripped string is the
string itself. -/
theorem pySplit_single {l w : List Char} (h : pySplit (pyStrip l) = [w]) :
    pyStrip l = w := by
  cases hcl : pyStrip l with
  | nil =>
    rw [hcl] at h
    cases h
  | cons c cs =>
    have hc : isSpacePy c = false := pyStrip_head_false hcl
    rw [hcl] at h
    unfold pySplit at h
    rw [pySplitAux, hc] at h
    simp only [Bool.false_eq_true, if_false] at h
    obtain ⟨a, b, hcs, -, hb, hw⟩ := pySplitAux_single cs [c] w (by simp) h
    cases hbe : b with
    | nil =>
      rw [hbe] at hcs
      rw [hw, hcs]
      simp
    | cons x xs =>
      exfalso
      have hbne : b.reverse ≠ [] := by simp [hbe]
      obtain ⟨d, u, hdu⟩ := List.exists_cons_of_ne_nil hbne
      have hd_mem : d ∈ b := by
        have hmem : d ∈ b.reverse := by rw [hdu]; exact List.mem_cons_self d u
        exact List.mem_reverse.mp hmem
      have hd_space : isSpacePy d = true := hb d hd_mem
      have hrev : (pyStrip l).reverse = d :: (u ++ (a.reverse ++ [c])) := by
        rw [hcl, hcs]
        simp only [List.reverse_cons, List.reverse_append, hdu]
        simp
      have hfalse := pyStrip_rev_head_false hrev
      rw [hd_space] at hfalse
      cases hfalse

/-- Helper for claim C6: an empty split of a stripped string means the
string is empty. -/
theorem pySplit_nil {l : List Char} (h : pySplit (pyStrip l) = []) :
    pyStrip l = [] := by
  obtain ⟨-, hall⟩ := pySplitAux_nil (pyStrip l) [] h
  cases hcl : pyStrip l with
  | nil => rfl
  | cons c cs =>
    have h1 := pyStrip_head_false hcl
    have h2 := hall c (by rw [hcl]; exact List.mem_cons_self c cs)
    rw [h1] at h2
    cases h2

/-- C6: the brand/model extraction strips every bracket-tag span, splits
the remainder on whitespace, and returns absent/absent for zero tokens,
the token alone for one token, and the first token plus the re-joined
remaining tokens (truncated to 200 characters) otherwise; concretely the
two titles of the claim produce Omega with Seamaster 300, and SoloToken
with no model. -/
theorem extract_brand_model_spec :
    (∀ title : String,
      (pySplit (pyStrip (subTags title.data)) = [] →
        extract_brand_model title = (none, none)) ∧
      (∀ t, pySplit (pyStrip (subTags title.data)) = [t] →
        extract_brand_model title = (some (String.mk t), none)) ∧
      (∀ t ts, pySplit (pyStrip (subTags title.data)) = t :: ts → ts ≠ [] →
        extract_brand_model title
          = (some (String.mk t),
             some (String.mk ((List.intercalate [' '] ts).take 200))))) ∧
    extract_brand_model "[WTS] [USA-CA] Omega Seamaster 300"
      = (some "Omega", some "Seamaster 300") ∧
    extract_brand_model "[WTS] SoloToken" = (some "SoloToken", none) := by
  refine ⟨?_, by decide, by decide⟩
  intro title
  by_cases h0 : title = ""
  · subst h0
    have hsplit : pySplit (pyStrip (subTags ("" : String).data)) = [] := rfl
    refine ⟨fun _ => rfl, ?_, ?_⟩
    · intro t ht
      rw [hsplit] at ht
      cases ht
    · intro t ts ht _
      rw [hsplit] at ht
      cases ht
  · refine ⟨?_, ?_, ?_⟩
    · intro hp
      have hcl := pySplit_nil hp
      unfold extract_brand_model
      rw [if_neg h0, hp, hcl]
      simp
    · intro t hp
      have hone := pySplit_single hp
      have htne : t ≠ [] := by
        intro h'
        rw [h'] at hone
        rw [hone] at hp
        cases hp
      unfold extract_brand_model
      rw [if_neg h0, hp, hone]
      rw [if_pos (by simp), if_neg htne]
    · intro t ts hp hts
      have hlen : ¬ (t :: ts).length < 2 := by
        cases ts with
        | nil => exact absurd rfl hts
        | cons x xs => simp [List.length_cons]
      unfold extract_brand_model
      rw [if_neg h0, hp, if_neg hlen]

/-- Witness for the C6 theorem at the concrete three-token title of the
claim. -/
theorem extract_brand_model_spec_witness :
    extract_brand_model "[WTS] [USA-CA] Omega Seamaster 300"
      = (some (String.mk "Omega".data),
         some (String.mk ((List.intercalate [' ']
            ["Seamaster".data, "300".data]).take 200))) :=
  (extract_brand_model_spec.1 "[WTS] [USA-CA] Omega Seamaster 300").2.2
    "Omega".data ["Seamaster".data, "300".data] (by decide) (by decide)

/-- Helper for claim C2: every fractional candidate is well formed. -/
theorem fracCands_good : ∀ (s : List Char) (fc : Option (Char × Char × Char) × List Char),
    fc ∈ fracCands s → goodFrac fc.1 := by
  intro s fc h
  rcases s with _ | ⟨sep, _ | ⟨d1, _ | ⟨d2, rest⟩⟩⟩ <;>
    simp only [fracCands] at h
  · rcases List.mem_singleton.mp h with rfl
    exact trivial
  · rcases List.mem_singleton.mp h with rfl
    exact trivial
  · rcases List.mem_singleton.mp h with rfl
    exact trivial
  · by_cases hcond : ((sep == '.' || sep == ',') && d1.isDigit && d2.isDigit) = true
    · rw [if_pos hcond] at h
      rcases List.mem_cons.mp h with rfl | h2
      · simp only [Bool.and_eq_true, Bool.or_eq_true, beq_iff_eq] at hcond
        exact ⟨hcond.1.1, hcond.1.2, hcond.2⟩
      · rcases List.mem_singleton.mp h2 with rfl
        exact trivial
    · rw [if_neg hcond] at h
      rcases List.mem_singleton.mp h with rfl
      exact trivial

/-- Helper for claim C2: every amount candidate is well formed. -/
theorem amountCands_good : ∀ (s : List Char) (p : Amount × List Char),
    p ∈ amountCands s → goodAmt p.1 := by
  intro s p h
  unfold amountCands at h
  simp only [List.mem_flatMap, List.mem_reverse, List.mem_range'_1, List.mem_map] at h
  obtain ⟨k, ⟨hk2, hklt⟩, fc, hfc, hp⟩ := h
  have hmin : min (s.takeWhile Char.isDigit).length 6 ≤ (s.takeWhile Char.isDigit).length :=
    min_le_left _ _
  have hkle : k ≤ (s.takeWhile Char.isDigit).length := by omega
  subst hp
  refine ⟨?_, ?_, fracCands_good _ fc hfc⟩
  · show (s.takeWhile Char.isDigit).take k ≠ []
    intro hnil
    have hlen : ((s.takeWhile Char.isDigit).take k).length = k := by
      rw [List.length_take]
      omega
    rw [hnil] at hlen
    simp at hlen
    omega
  · show ∀ c ∈ (s.takeWhile Char.isDigit).take k, c.isDigit = true
    intro c hc
    exact List.mem_takeWhile_imp (List.mem_of_mem_take hc)

/-- Helper for claim C2: a successful firstHit comes from some candidate. -/
theorem firstHit_mem {α β : Type} {f : α → Option β} {b : β} :
    ∀ {l : List α}, firstHit f l = some b → ∃ a ∈ l, f a = some b := by
  intro l
  induction l with
  | nil => intro h; cases h
  | cons a as ih =>
    intro h
    rw [firstHit] at h
    cases hfa : f a with
    | some b0 =>
      rw [hfa] at h
      injection h with h1
      exact ⟨a, List.mem_cons_self a as, by rw [hfa, h1]⟩
    | none =>
      rw [hfa] at h
      obtain ⟨x, hx, hfx⟩ := ih h
      exact ⟨x, List.mem_cons_of_mem a hx, hfx⟩

/-- Helper for claim C2: the first alternative of PRICE_RE yields a well
formed amount. -/
theorem priceAlt1_good {s : List Char} {r : Currency × Amount}
    (h : priceAlt1 s = some r) : goodAmt r.2 := by
  cases s with
  | nil => cases h
  | cons c cs =>
    simp only [priceAlt1] at h
    by_cases hc : c = '$'
    · rw [if_pos hc] at h
      obtain ⟨r0, -, hfr⟩ := firstHit_mem h
      cases hac : amountCands r0 with
      | nil => rw [hac] at hfr; cases hfr
      | cons p ps =>
        rw [hac] at hfr
        obtain ⟨a0, rest0⟩ := p
        injection hfr with h1
        rw [← h1]
        exact amountCands_good r0 (a0, rest0) (by rw [hac]; exact List.mem_cons_self _ _)
    · rw [if_neg hc] at h
      cases h

/-- Helper for claim C2: the second alternative of PRICE_RE yields a well
formed amount. -/
theorem priceAlt2_good {s : List Char} {r : Currency × Amount}
    (h : priceAlt2 s = some r) : goodAmt r.2 := by
  unfold priceAlt2 at h
  obtain ⟨ar, har, h2⟩ := firstHit_mem h
  obtain ⟨r2, -, h3⟩ := firstHit_mem h2
  by_cases hcond : ("usd".data.isPrefixOf r2 || "USD".data.isPrefixOf r2) = true
  · rw [if_pos hcond] at h3
    injection h3 with h4
    rw [← h4]
    exact amountCands_good s ar har
  · rw [if_neg hcond] at h3
    cases h3

/-- Helper for claim C2: the third alternative of PRICE_RE yields a well
formed amount. -/
theorem priceAlt3_good {s : List Char} {r : Currency × Amount}
    (h : priceAlt3 s = some r) : goodAmt r.2 := by
  unfold priceAlt3 at h
  obtain ⟨ar, har, h2⟩ := firstHit_mem h
  obtain ⟨r2, -, h3⟩ := firstHit_mem h2
  by_cases hcond :
      ("eur".data.isPrefixOf r2 || "EUR".data.isPrefixOf r2 || "€".data.isPrefixOf r2) = true
  · rw [if_pos hcond] at h3
    injection h3 with h4
    rw [← h4]
    exact amountCands_good s ar har
  · rw [if_neg hcond] at h3
    cases h3

/-- Helper for claim C2: the fourth alternative of PRICE_RE yields a well
formed amount. -/
theorem priceAlt4_good {s : List Char} {r : Currency × Amount}
    (h : priceAlt4 s = some r) : goodAmt r.2 := by
  cases s with
  | nil => cases h
  | cons c cs =>
    simp only [priceAlt4] at h
    by_cases hc : c = '€'
    · rw [if_pos hc] at h
      obtain ⟨r0, -, hfr⟩ := firstHit_mem h
      cases hac : amountCands r0 with
      | nil => rw [hac] at hfr; cases hfr
      | cons p ps =>
        rw [hac] at hfr
        obtain ⟨a0, rest0⟩ := p
        injection hfr with h1
        rw [← h1]
        exact amountCands_good r0 (a0, rest0) (by rw [hac]; exact List.mem_cons_self _ _)
    · rw [if_neg hc] at h
      cases h

/-- Helper for claim C2: any match at a position yields a well formed
amount. -/
theorem priceMatchAt_good {s : List Char} {r : Currency × Amount}
    (h : priceMatchAt s = some r) : goodAmt r.2 := by
  unfold priceMatchAt at h
  cases h1 : priceAlt1 s with
  | some r1 =>
    rw [h1] at h
    injection h with h'
    rw [← h']
    exact priceAlt1_good h1
  | none =>
    rw [h1] at h
    cases h2 : priceAlt2 s with
    | some r2 =>
      rw [h2] at h
      injection h with h'
      rw [← h']
      exact priceAlt2_good h2
    | none =>
      rw [h2] at h
      cases h3 : priceAlt3 s with
      | some r3 =>
        rw [h3] at h
        injection h with h'
        rw [← h']
        exact priceAlt3_good h3
      | none =>
        rw [h3] at h
        exact priceAlt4_good h

/-- Helper for claim C2: any search result carries a well formed amount. -/
theorem searchPrice_good : ∀ {s : List Char} {r : Currency × Amount},
    searchPrice s = some r → goodAmt r.2 := by
  intro s
  induction s with
  | nil => intro r h; cases h
  | cons c cs ih =>
    intro r h
    rw [searchPrice] at h
    cases hm : priceMatchAt (c :: cs) with
    | some r0 =>
      rw [hm] at h
      injection h with h'
      rw [← h']
      exact priceMatchAt_good hm
    | none =>
      rw [hm] at h
      exact ih h

/-- Helper for claim C2: a digit is not a comma, so the comma filter
keeps it. -/
theorem digit_ne_comma {c : Char} (h : c.isDigit = true) : (c != ',') = true := by
  rcases eq_or_ne c ',' with rfl | hne
  · exact absurd h (by decide)
  · simpa using hne

/-- Helper for claim C2: the comma filter leaves an all-digit list
unchanged. -/
theorem digit_filter {l : List Char} (h : ∀ c ∈ l, c.isDigit = true) :
    l.filter (fun c => c != ',') = l := by
  rw [List.filter_eq_self]
  intro a ha
  exact digit_ne_comma (h a ha)

/-- Helper for claim C2: takeWhile and dropWhile on a list all of whose
elements satisfy the predicate. -/
theorem takeWhile_all {p : Char → Bool} : ∀ {l : List Char}, (∀ c ∈ l, p c = true) →
    l.takeWhile p = l ∧ l.dropWhile p = [] := by
  intro l
  induction l with
  | nil => intro _; exact ⟨rfl, rfl⟩
  | cons a t ih =>
    intro h
    have ha : p a = true := h a (List.mem_cons_self a t)
    have ht := ih (fun c hc => h c (List.mem_cons_of_mem a hc))
    rw [List.takeWhile_cons, List.dropWhile_cons, ha]
    simp only [if_true]
    exact ⟨by rw [ht.1], ht.2⟩

/-- Helper for claim C2: takeWhile and dropWhile on an all-satisfying
prefix followed by a failing character. -/
theorem takeWhile_append_not {p : Char → Bool} {c : Char} {l2 : List Char}
    (hc : p c = false) : ∀ {l1 : List Char}, (∀ x ∈ l1, p x = true) →
    (l1 ++ c :: l2).takeWhile p = l1 ∧ (l1 ++ c :: l2).dropWhile p = c :: l2 := by
  intro l1
  induction l1 with
  | nil =>
    intro _
    rw [List.nil_append, List.takeWhile_cons, List.dropWhile_cons, hc]
    simp
  | cons a t ih =>
    intro h
    have ha : p a = true := h a (List.mem_cons_self a t)
    have ht := ih (fun x hx => h x (List.mem_cons_of_mem a hx))
    rw [List.cons_append, List.takeWhile_cons, List.dropWhile_cons, ha]
    simp only [if_true]
    exact ⟨by rw [ht.1], ht.2⟩

/-- Helper for claim C2: the rendered value of a well formed amount,
after comma removal, matches the digits-then-optional-dot-two-digits
shape. -/
theorem goodAmt_shape {a : Amount} (h : goodAmt a) :
    amtShape (a.valChars.filter (fun c => c != ',')) = true := by
  obtain ⟨hne, hdig, hfrac⟩ := h
  unfold Amount.valChars
  cases hf : a.frac with
  | none =>
    simp only [List.append_nil]
    rw [digit_filter hdig]
    have ht := @takeWhile_all Char.isDigit a.intPart hdig
    unfold amtShape
    rw [ht.1, ht.2]
    simp [hne]
  | some f =>
    obtain ⟨sep, d1, d2⟩ := f
    rw [hf] at hfrac
    obtain ⟨hsep, hd1, hd2⟩ := hfrac
    rcases hsep with rfl | rfl
    · have hfl : (a.intPart ++ ['.', d1, d2]).filter (fun c => c != ',')
          = a.intPart ++ ['.', d1, d2] := by
        rw [List.filter_append, digit_filter hdig]
        simp [digit_ne_comma hd1, digit_ne_comma hd2]
      rw [hfl]
      have ht := @takeWhile_append_not Char.isDigit '.' [d1, d2] (by decide) a.intPart hdig
      unfold amtShape
      rw [ht.1, ht.2]
      simp only [fracShape, Bool.and_eq_true]
      simp [hne, hd1, hd2]
    · have hfl : (a.intPart ++ [',', d1, d2]).filter (fun c => c != ',')
          = a.intPart ++ [d1, d2] := by
        rw [List.filter_append, digit_filter hdig]
        simp [digit_ne_comma hd1, digit_ne_comma hd2]
      rw [hfl]
      have hall : ∀ c ∈ a.intPart ++ [d1, d2], c.isDigit = true := by
        intro c hc
        rcases List.mem_append.mp hc with hc | hc
        · exact hdig c hc
        · rcases List.mem_cons.mp hc with rfl | hc
          · exact hd1
          · rcases List.mem_singleton.mp hc with rfl
            exact hd2
      have ht := @takeWhile_all Char.isDigit (a.intPart ++ [d1, d2]) hall
      unfold amtShape
      rw [ht.1, ht.2]
      simp [hne]

/-- C2: for every text input, extract_price returns either the absent
value or a string of the shape USD-or-EUR, a space, digits, optionally a
dot and exactly two fractional digits; no other output shape occurs. -/
theorem extract_price_shape_spec (text : String) :
    extract_price text = none ∨
    ∃ s, extract_price text = some s ∧ specPriceShape s = true := by
  unfold extract_price
  by_cases h0 : text = ""
  · rw [if_pos h0]
    exact Or.inl rfl
  · rw [if_neg h0]
    cases hsp : searchPrice text.data with
    | none => exact Or.inl rfl
    | some ca =>
      obtain ⟨cur, a⟩ := ca
      refine Or.inr ⟨_, rfl, ?_⟩
      have hamt := goodAmt_shape (searchPrice_good hsp)
      have hdata : (cur.str ++ " " ++ String.mk (a.valChars.filter (fun c => c != ','))).data
          = cur.str.data ++ ' ' :: (a.valChars.filter (fun c => c != ',')) := by
        simp [String.data_append]
      cases cur with
      | USD =>
        unfold specPriceShape
        rw [hdata]
        exact hamt
      | EUR =>
        unfold specPriceShape
        rw [hdata]
        exact hamt

/-- C3 (code bug): on the comma-decimal input the script strips the
comma as if it were a thousands separator, so the matched amount 12,34
is rendered as USD 1234 and not as the dot form USD 12.34: the numeric
value is not preserved. -/
theorem extract_price_comma_decimal_bug :
    extract_price "$12,34" = some "USD 1234" ∧
    extract_price "$12.34" = some "USD 12.34" ∧
    ("USD 1234" : String) ≠ "USD 12.34" := by
  refine ⟨by decide, by decide, by decide⟩
